import Mathlib

/-!
Shallow embedding of the TubeSwipe feed-aggregation pipeline
(`app/services/youtube.py`, `app/services/utils.py`, `app/services/storage.py`)
and proofs of the specification claims about it.

External collaborators (the YouTube data API, the HTTP probe transport, the
wall clock, the mute-list file) are modelled as components of an `Env` record;
the functions of the service module are translated into pure Lean functions
over that record.  Machine time is modelled as `Int` seconds.  Fallible
collaborator calls are modelled with `Except Unit`.
-/

namespace TubeSwipe

/-- A playlist (collection) as returned by `get_user_playlists`:
we keep the two fields the feed pipeline reads, `id` and `title`. -/
structure PL where
  id : String
  title : String
deriving DecidableEq, Repr

/-- A raw upload record as consumed by `get_feed`: the fields of the
`playlistItems.list` response that the pipeline reads
(`snippet.resourceId.videoId`, `snippet.title`, `snippet.channelTitle`,
`snippet.channelId`, `snippet.publishedAt`, `snippet.thumbnails.high.url`). -/
structure RawVideo where
  videoId : String
  title : String
  channelTitle : String
  channelId : String
  publishedAt : String
  thumbnailUrl : String
deriving DecidableEq, Repr

/-- A formatted feed entry, as built at the end of `get_feed`. -/
structure FeedEntry where
  video_id : String
  title : String
  channel_title : String
  thumbnail_url : String
  published_at : String
  channel_id : String
  saved : Bool
  saved_to : List PL
deriving DecidableEq, Repr

/-- The module-level `FEED_CACHE` dict: `data` is `None` or a list,
`timestamp` a time in seconds, `key` absent (`none`) or a string. -/
structure FeedCache where
  data : Option (List FeedEntry)
  timestamp : Int
  key : Option String
deriving DecidableEq, Repr

/-- The initial `FEED_CACHE = {"data": None, "timestamp": 0}` (no `"key"`). -/
def initCache : FeedCache := ⟨none, 0, none⟩

/-- `CACHE_DURATION = 300`. -/
def CACHE_DURATION : Int := 300

/-- One collaborator invocation, for tracing which external calls an
execution of `get_feed` performs. -/
inductive Call where
  | subscriptions
  | channels
  | playlistItems (pid : String)
  | muteLoad
  | probeCall (vid : String)
  | listPlaylists
  | playlistIds (pid : String)
deriving DecidableEq, Repr

/-- The external world `get_feed` runs against. -/
structure Env where
  /-- `token_info['mock']`: when true `get_youtube_client` returns `None`. -/
  mock : Bool
  /-- the `channelId`s of `get_subscriptions`' items. -/
  subsChannelIds : List String
  /-- `get_uploads_playlist_ids`: channel ids to uploads-playlist ids. -/
  resolveUploads : List String → List String
  /-- one `playlistItems.list` fetch inside
  `get_recent_videos_from_playlists`; `.error` models a raised exception. -/
  fetchPlaylist : String → Except Unit (List RawVideo)
  /-- `load_muted_channels()`: the muted channel ids. -/
  muted : List String
  /-- `datetime.now(timezone.utc)` in seconds. -/
  nowUtc : Int
  /-- `datetime.fromisoformat` on an already-normalized string:
  `none` models a parse exception. -/
  parseTS : String → Option Int
  /-- HEAD-request status for one video id in `check_is_short_parallel`;
  `none` models a network/protocol exception. -/
  probe : String → Option Nat
  /-- `get_user_playlists` result. -/
  userPlaylists : List PL
  /-- `get_playlist_video_ids` for one playlist id, as observed by the
  saved-status loop in `get_feed`; `.error` models a raised exception. -/
  enumIds : String → Except Unit (List String)
  /-- `time.time()` in seconds. -/
  wallTime : Int

/-- Python truthiness of the `check_playlist_id` argument
(`None` and the empty string are falsy). -/
def truthyStr : Option String → Bool
  | none => false
  | some s => !(s == "")

/-- Python truthiness of `FEED_CACHE["data"]`
(`None` and the empty list are falsy). -/
def truthyData : Option (List FeedEntry) → Bool
  | some (_ :: _) => true
  | _ => false

/-- `cache_key = f"shorts:{include_shorts}"`. -/
def cacheKey (include_shorts : Bool) : String :=
  "shorts:" ++ (if include_shorts then "True" else "False")

/-- The cache-lookup condition of `get_feed` (lines 317-325): not forcing a
refresh, no (truthy) playlist filter, truthy stored data, stored key equal to
the request key, and age strictly below `CACHE_DURATION`. -/
def cacheHit (c : FeedCache) (ck : String) (force_refresh : Bool)
    (check_playlist_id : Option String) (now : Int) : Bool :=
  !force_refresh && !truthyStr check_playlist_id && truthyData c.data &&
    decide (c.key = some ck) && decide (now - c.timestamp < CACHE_DURATION)

/-- `get_mock_feed()`, lifted to the `FeedEntry` shape (the Python dicts lack
the `saved`/`saved_to` keys; we supply `false`/`[]`). -/
def mockFeed : List FeedEntry :=
  [ { video_id := "dQw4w9WgXcQ",
      title := "Rick Astley - Never Gonna Give You Up (Official Music Video)",
      channel_title := "Rick Astley",
      thumbnail_url := "https://i.ytimg.com/vi/dQw4w9WgXcQ/hqdefault.jpg",
      published_at := "2009-10-25T10:00:00Z",
      channel_id := "UCuAXFkgsw1L7xaCfnd5JJOw",
      saved := false, saved_to := [] },
    { video_id := "jNQXAC9IVRw",
      title := "Me at the zoo",
      channel_title := "jawed",
      thumbnail_url := "https://i.ytimg.com/vi/jNQXAC9IVRw/hqdefault.jpg",
      published_at := "2005-04-24T03:31:52Z",
      channel_id := "UC4QZ_LsYcvcqPqGSqIZShGA",
      saved := false, saved_to := [] },
    { video_id := "9bZkp7q19f0",
      title := "PSY - GANGNAM STYLE(강남스타일) M/V",
      channel_title := "officialpsy",
      thumbnail_url := "https://i.ytimg.com/vi/9bZkp7q19f0/hqdefault.jpg",
      published_at := "2012-07-15T07:46:32Z",
      channel_id := "UCrDkAvwZum-UTjHmzDI2iIw",
      saved := false, saved_to := [] } ]

/-- The loop of `get_recent_videos_from_playlists`: one fetch per playlist id,
a raised exception is logged and skipped (`continue`), a non-empty result is
appended to the accumulator (`videos.extend(items)` under `if items:`). -/
def getRecentGo (fetch : String → Except Unit (List RawVideo)) :
    List String → List RawVideo → List RawVideo
  | [], videos => videos
  | pid :: rest, videos =>
    match fetch pid with
    | .ok items =>
      if items = [] then getRecentGo fetch rest videos
      else getRecentGo fetch rest (videos ++ items)
    | .error _ => getRecentGo fetch rest videos

/-- `get_recent_videos_from_playlists(youtube, playlist_ids)`. -/
def get_recent_videos_from_playlists
    (fetch : String → Except Unit (List RawVideo)) (playlist_ids : List String) :
    List RawVideo :=
  getRecentGo fetch playlist_ids []

/-- One page of a `playlistItems.list` id enumeration. -/
structure IdPage where
  items : List String
  nextPageToken : Option String

/-- Add to a model of a Python `set` kept as an insertion-ordered
duplicate-free list. -/
def setAdd (s : List String) (v : String) : List String :=
  if v ∈ s then s else s ++ [v]

/-- The page loop of `get_playlist_video_ids`: at most 10 pages, an exception
breaks the loop keeping the ids gathered so far, an absent `nextPageToken`
ends it. -/
def getPlaylistIdsGo (fetch : Option String → Except Unit IdPage) :
    Nat → Option String → List String → List String
  | 0, _, acc => acc
  | n + 1, tok, acc =>
    match fetch tok with
    | .error _ => acc
    | .ok page =>
      let acc2 := page.items.foldl setAdd acc
      match page.nextPageToken with
      | none => acc2
      | some t => getPlaylistIdsGo fetch n (some t) acc2

/-- `get_playlist_video_ids(youtube, playlist_id)`, abstracted over the
per-page fetch for the given playlist. -/
def get_playlist_video_ids (fetch : Option String → Except Unit IdPage) :
    List String :=
  getPlaylistIdsGo fetch 10 none []

/-- The `check_single` closure of `check_is_short_parallel`: the id when the
HEAD status is exactly 200, `None` on any other status or on an exception. -/
def check_single (probe : String → Option Nat) (vid : String) : Option String :=
  match probe vid with
  | some st => if st = 200 then some vid else none
  | none => none

/-- `check_is_short_parallel(video_ids)`: gather all `check_single` results
and collect the non-`None` ones into a set. -/
def check_is_short_parallel (probe : String → Option Nat)
    (video_ids : List String) : List String :=
  ((video_ids.map (check_single probe)).foldl
    (fun s r => match r with | some v => setAdd s v | none => s) [])

/-- `Z`-suffix normalization of a timestamp string (lines 365-366):
`pub_str[:-1] + '+00:00'` when the string ends in `'Z'` (computed on the
character list so that it evaluates by `decide`). -/
def normZ (s : String) : String :=
  if s.data.getLast? = some 'Z' then String.mk s.data.dropLast ++ "+00:00" else s

/-- The recency-filter loop (lines 359-375): keep an item iff its normalized
timestamp parses and is at or after the cutoff; a parse failure drops it. -/
def recencyFilter (parse : String → Option Int) (cutoff : Int) :
    List RawVideo → List RawVideo
  | [] => []
  | v :: rest =>
    match parse (normZ v.publishedAt) with
    | some t =>
      if cutoff ≤ t then v :: recencyFilter parse cutoff rest
      else recencyFilter parse cutoff rest
    | none => recencyFilter parse cutoff rest

/-- Lexicographic string comparison by code points, as Python's `<` on `str`
(computed on the character lists; propositionally the same as `String.lt`). -/
def pubLT (s t : String) : Bool := decide (s.data < t.data)

/-- Stable descending insertion by `publishedAt` (string comparison, as in
`raw_videos.sort(key=..., reverse=True)`): the new element goes after every
element whose key is greater than or equal to its own. -/
def insertDesc (v : RawVideo) : List RawVideo → List RawVideo
  | [] => [v]
  | w :: ws =>
    if pubLT w.publishedAt v.publishedAt then v :: w :: ws
    else w :: insertDesc v ws

/-- `raw_videos.sort(key=lambda x: x["snippet"]["publishedAt"], reverse=True)`:
a stable descending sort by the `publishedAt` string. -/
def sortByPublishedDesc (l : List RawVideo) : List RawVideo :=
  l.foldl (fun acc v => insertDesc v acc) []

/-- Lookup in the association-list model of the Python dict
`saved_video_map`. -/
def mapGet (m : List (String × List PL)) (vid : String) : Option (List PL) :=
  (m.find? (fun kv => kv.1 == vid)).map (·.2)

/-- Update one key of the association-list model of `saved_video_map`. -/
def mapSet (m : List (String × List PL)) (vid : String) (l : List PL) :
    List (String × List PL) :=
  match m with
  | [] => [(vid, l)]
  | kv :: rest => if kv.1 == vid then (vid, l) :: rest else kv :: mapSet rest vid l

/-- The inner body of the saved-status loop (lines 408-414): ensure an entry
for `vid`, then append the playlist unless its id is already listed. -/
def addOne (pl : PL) (m : List (String × List PL)) (vid : String) :
    List (String × List PL) :=
  let cur := (mapGet m vid).getD []
  if cur.any (fun p => p.id == pl.id) then mapSet m vid cur
  else mapSet m vid (cur ++ [pl])

/-- One playlist of the saved-status loop (lines 405-417): enumerate its video
ids and record them; a raised enumeration exception leaves the map as it was. -/
def perPlaylist (enum : String → Except Unit (List String))
    (m : List (String × List PL)) (pl : PL) : List (String × List PL) :=
  match enum pl.id with
  | .ok vids => vids.foldl (addOne pl) m
  | .error _ => m

/-- The whole `saved_video_map` build of `get_feed`. -/
def buildSavedMap (enum : String → Except Unit (List String))
    (pls : List PL) : List (String × List PL) :=
  pls.foldl (perPlaylist enum) []

/-- The formatting step (lines 421-437): one `FeedEntry` per raw video,
annotated from `saved_video_map` (`in` for `saved`, `.get(vid, [])` for
`saved_to`). -/
def formatVideo (m : List (String × List PL)) (v : RawVideo) : FeedEntry :=
  { video_id := v.videoId
    title := v.title
    channel_title := v.channelTitle
    thumbnail_url := v.thumbnailUrl
    published_at := v.publishedAt
    channel_id := v.channelId
    saved := (mapGet m v.videoId).isSome
    saved_to := (mapGet m v.videoId).getD [] }

/-- The upload-playlist ids of the subscribed channels (steps 1-3). -/
def uploadIds (env : Env) : List String :=
  env.resolveUploads env.subsChannelIds

/-- Raw uploads after the muted-channel filter (lines 348-354). -/
def rawAfterMute (env : Env) : List RawVideo :=
  (get_recent_videos_from_playlists env.fetchPlaylist (uploadIds env)).filter
    (fun v => !(env.muted.contains v.channelId))

/-- Raw uploads after the 48-hour recency filter (lines 356-377). -/
def rawAfterRecency (env : Env) : List RawVideo :=
  recencyFilter env.parseTS (env.nowUtc - 48 * 3600) (rawAfterMute env)

/-- Raw uploads after the optional short-form filter (lines 379-387). -/
def rawAfterShorts (env : Env) (include_shorts : Bool) : List RawVideo :=
  if include_shorts then rawAfterRecency env
  else
    (rawAfterRecency env).filter (fun v =>
      !((check_is_short_parallel env.probe
          ((rawAfterRecency env).map (·.videoId))).contains v.videoId))

/-- The `saved_video_map` of this assembly. -/
def savedMap (env : Env) : List (String × List PL) :=
  buildSavedMap env.enumIds env.userPlaylists

/-- The formatted, sorted output of one full assembly (steps 1-6). -/
def assembleVideos (env : Env) (include_shorts : Bool) : List FeedEntry :=
  (sortByPublishedDesc (rawAfterShorts env include_shorts)).map
    (formatVideo (savedMap env))

/-- The collaborator calls one full assembly makes, in order. -/
def assembleCalls (env : Env) (include_shorts : Bool) : List Call :=
  [Call.subscriptions, Call.channels]
    ++ (uploadIds env).map Call.playlistItems
    ++ [Call.muteLoad]
    ++ (if include_shorts then []
        else (rawAfterRecency env).map (fun v => Call.probeCall v.videoId))
    ++ [Call.listPlaylists]
    ++ env.userPlaylists.map (fun pl => Call.playlistIds pl.id)

/-- The miss branch of `get_feed` (from line 333 on): the mock early return,
the empty-subscriptions early return, the full assembly, and the cache store
(skipped when a truthy playlist filter was requested). -/
def feedMiss (env : Env) (c : FeedCache) (include_shorts : Bool)
    (check_playlist_id : Option String) : List FeedEntry × FeedCache × List Call :=
  if env.mock then (mockFeed, c, [])
  else if env.subsChannelIds = [] then ([], c, [Call.subscriptions])
  else
    let out := assembleVideos env include_shorts
    if truthyStr check_playlist_id then (out, c, assembleCalls env include_shorts)
    else
      (out, ⟨some out, env.wallTime, some (cacheKey include_shorts)⟩,
        assembleCalls env include_shorts)

/-- `get_feed(youtube, include_shorts, check_playlist_id, force_refresh)`:
returns the response data, the `FEED_CACHE` after the call, and the trace of
collaborator calls made. -/
def get_feed (env : Env) (c : FeedCache) (include_shorts : Bool)
    (check_playlist_id : Option String) (force_refresh : Bool) :
    List FeedEntry × FeedCache × List Call :=
  if cacheHit c (cacheKey include_shorts) force_refresh check_playlist_id
      env.wallTime then
    (c.data.getD [], c, [])
  else feedMiss env c include_shorts check_playlist_id

/-! ### Concrete environments used to instantiate the theorems -/

/-- A small environment with one subscription whose single recent upload
survives all filters and is saved in one collection. -/
def envA : Env :=
  { mock := false
    subsChannelIds := ["c1"]
    resolveUploads := fun cs => cs.map (fun c => "u" ++ c)
    fetchPlaylist := fun p =>
      if p = "uc1" then .ok [⟨"v1", "T1", "Ch1", "c1", "t9Z", "th"⟩]
      else .error ()
    muted := []
    nowUtc := 172800
    parseTS := fun s => if s = "t9+00:00" then some 9 else none
    probe := fun _ => some 200
    userPlaylists := [⟨"p1", "P"⟩]
    enumIds := fun pid => if pid = "p1" then .ok ["v1"] else .error ()
    wallTime := 100 }

/-- `envA` observed again 100 seconds later. -/
def envA2 : Env := { envA with wallTime := 200 }

/-- `envA` observed again 150 seconds later. -/
def envA3 : Env := { envA with wallTime := 250 }

/-- An environment whose assembly succeeds but yields an empty feed
(the only subscribed channel resolves to no upload playlist). -/
def envE : Env :=
  { mock := false
    subsChannelIds := ["c1"]
    resolveUploads := fun _ => []
    fetchPlaylist := fun _ => .error ()
    muted := []
    nowUtc := 0
    parseTS := fun _ => none
    probe := fun _ => some 200
    userPlaylists := []
    enumIds := fun _ => .error ()
    wallTime := 0 }

/-- `envE` observed again 10 seconds later. -/
def envE2 : Env := { envE with wallTime := 10 }

/-- The raw upload served by `envA`'s single subscription. -/
def rawA : RawVideo := ⟨"v1", "T1", "Ch1", "c1", "t9Z", "th"⟩

/-- The formatted entry `envA`'s assembly produces. -/
def eA : FeedEntry :=
  { video_id := "v1", title := "T1", channel_title := "Ch1",
    thumbnail_url := "th", published_at := "t9Z", channel_id := "c1",
    saved := true, saved_to := [⟨"p1", "P"⟩] }

/-- A fetch map where only playlist `a` succeeds. -/
def exFetch : String → Except Unit (List RawVideo) :=
  fun q => if q = "a" then .ok [rawA] else .error ()

/-- A sample cached feed entry. -/
def eEx : FeedEntry :=
  { video_id := "v1", title := "T1", channel_title := "Ch1",
    thumbnail_url := "th", published_at := "t9Z", channel_id := "c1",
    saved := false, saved_to := [] }

/-- A populated cache slot whose key matches a shorts-included request. -/
def cWit : FeedCache := ⟨some [eEx], 90, some (cacheKey true)⟩

/-- A populated cache slot stored under the opposite short-form key. -/
def cWit2 : FeedCache := ⟨some [eEx], 90, some (cacheKey false)⟩

/-! ### Lemmas about the short-form classifier -/

theorem setAdd_mem (s : List String) (w v : String) :
    v ∈ setAdd s w ↔ v ∈ s ∨ v = w := by
  by_cases h : w ∈ s
  · simp only [setAdd, if_pos h]
    constructor
    · exact Or.inl
    · rintro (hv | rfl)
      · exact hv
      · exact h
  · simp [setAdd, if_neg h]

theorem collectShorts_mem (rs : List (Option String)) (acc : List String)
    (v : String) :
    v ∈ rs.foldl (fun s r => match r with | some u => setAdd s u | none => s) acc ↔
      v ∈ acc ∨ some v ∈ rs := by
  induction rs generalizing acc with
  | nil => simp
  | cons r rest ih =>
    cases r with
    | none => simp [List.foldl_cons, ih]
    | some u =>
      simp only [List.foldl_cons, ih, setAdd_mem, List.mem_cons, Option.some.injEq]
      tauto

theorem check_single_eq_some (probe : String → Option Nat) (u v : String) :
    check_single probe u = some v ↔ (u = v ∧ probe u = some 200) := by
  unfold check_single
  cases h : probe u with
  | none => simp
  | some st => by_cases h2 : st = 200 <;> simp [h2]

/-- C9: the short-form classifier returns exactly the input ids whose probe
status is exactly 200; any other status (in particular a 30x redirect) and any
per-id error (`probe v = none`) leave the id out of the result, and errors are
never propagated (the function is total and returns a set regardless). -/
theorem check_is_short_parallel_spec (probe : String → Option Nat)
    (video_ids : List String) (v : String) :
    v ∈ check_is_short_parallel probe video_ids ↔
      (v ∈ video_ids ∧ probe v = some 200) := by
  unfold check_is_short_parallel
  rw [collectShorts_mem]
  simp only [List.mem_map, check_single_eq_some, List.not_mem_nil, false_or]
  constructor
  · rintro ⟨u, hu, rfl, hp⟩
    exact ⟨hu, hp⟩
  · rintro ⟨hv, hp⟩
    exact ⟨v, hv, rfl, hp⟩

/-! ### Lemmas about the upload fetcher -/

theorem getRecentGo_acc (fetch : String → Except Unit (List RawVideo))
    (pids : List String) (videos : List RawVideo) :
    getRecentGo fetch pids videos = videos ++ getRecentGo fetch pids [] := by
  induction pids generalizing videos with
  | nil => simp [getRecentGo]
  | cons p rest ih =>
    unfold getRecentGo
    cases h : fetch p with
    | error e =>
      simp only [h]
      exact ih videos
    | ok items =>
      by_cases hi : items = []
      · simp only [h, if_pos hi]
        exact ih videos
      · simp only [h, if_neg hi, List.nil_append]
        rw [ih (videos ++ items), ih items, List.append_assoc]

theorem get_recent_videos_flatten (fetch : String → Except Unit (List RawVideo))
    (pids : List String) :
    get_recent_videos_from_playlists fetch pids =
      (pids.map (fun q => match fetch q with
        | .ok l => l
        | .error _ => [])).flatten := by
  induction pids with
  | nil => rfl
  | cons p rest ih =>
    unfold get_recent_videos_from_playlists at ih ⊢
    unfold getRecentGo
    cases h : fetch p with
    | error e =>
      simp only [h, List.map_cons, List.flatten_cons, List.nil_append]
      exact ih
    | ok items =>
      by_cases hi : items = []
      · simp only [h, if_pos hi, List.map_cons, List.flatten_cons, hi,
          List.nil_append]
        exact ih
      · simp only [h, if_neg hi, List.map_cons, List.flatten_cons,
          List.nil_append]
        rw [getRecentGo_acc, ih]

/-- C8: a fetch failure for one upload feed contributes zero items and never
aborts the remaining fetches — removing a failing feed id from the input does
not change the result — and the overall result is the concatenation of the
per-feed results (the failing feeds contributing `[]`). -/
theorem upload_fetcher_partial_failure
    (fetch : String → Except Unit (List RawVideo)) (xs ys : List String)
    (p : String) (hfail : fetch p = .error ()) :
    get_recent_videos_from_playlists fetch (xs ++ p :: ys) =
      get_recent_videos_from_playlists fetch (xs ++ ys)
    ∧ ∀ pids, get_recent_videos_from_playlists fetch pids =
        (pids.map (fun q => match fetch q with
          | .ok l => l
          | .error _ => [])).flatten := by
  refine ⟨?_, fun pids => get_recent_videos_flatten fetch pids⟩
  rw [get_recent_videos_flatten, get_recent_videos_flatten]
  simp [hfail]

/-- C8 instantiated: dropping the failing feed id `b` leaves the result
unchanged, and the result is the concatenation of per-feed results. -/
theorem upload_fetcher_partial_failure_witness :
    get_recent_videos_from_playlists exFetch (["a"] ++ "b" :: ["c"]) =
      get_recent_videos_from_playlists exFetch (["a"] ++ ["c"]) ∧
    get_recent_videos_from_playlists exFetch ["a", "b"] =
      ((["a", "b"]).map (fun q => match exFetch q with
        | .ok l => l
        | .error _ => [])).flatten :=
  ⟨(upload_fetcher_partial_failure exFetch ["a"] ["c"] "b" rfl).1,
   (upload_fetcher_partial_failure exFetch ["a"] ["c"] "b" rfl).2 ["a", "b"]⟩

/-! ### Lemmas about the recency filter -/

theorem recencyFilter_mem (parse : String → Option Int) (cutoff : Int)
    (l : List RawVideo) (v : RawVideo) :
    v ∈ recencyFilter parse cutoff l ↔
      (v ∈ l ∧ ∃ t, parse (normZ v.publishedAt) = some t ∧ cutoff ≤ t) := by
  induction l with
  | nil => simp [recencyFilter]
  | cons w rest ih =>
    unfold recencyFilter
    cases h : parse (normZ w.publishedAt) with
    | none =>
      rw [ih]
      simp only [List.mem_cons]
      constructor
      · rintro ⟨hv, ht⟩
        exact ⟨Or.inr hv, ht⟩
      · rintro ⟨hv | hv, t, ht, hc⟩
        · subst hv
          rw [h] at ht
          cases ht
        · exact ⟨hv, t, ht, hc⟩
    | some t =>
      by_cases hc : cutoff ≤ t
      · simp only [if_pos hc, List.mem_cons, ih]
        constructor
        · rintro (rfl | ⟨hv, ht⟩)
          · exact ⟨Or.inl rfl, t, h, hc⟩
          · exact ⟨Or.inr hv, ht⟩
        · rintro ⟨hv | hv, ht⟩
          · exact Or.inl hv
          · exact Or.inr ⟨hv, ht⟩
      · simp only [if_neg hc, ih, List.mem_cons]
        constructor
        · rintro ⟨hv, ht⟩
          exact ⟨Or.inr hv, ht⟩
        · rintro ⟨hv | hv, t2, ht2, hc2⟩
          · subst hv
            rw [h] at ht2
            cases ht2
            exact absurd hc2 hc
          · exact ⟨hv, t2, ht2, hc2⟩

/-! ### Lemmas about the stable descending sort -/

theorem pubLT_iff (s t : String) : pubLT s t = true ↔ s < t := by
  rw [pubLT, decide_eq_true_iff, String.lt_iff_toList_lt]
  rfl

theorem pubLT_false_iff (s t : String) : pubLT s t = false ↔ t ≤ s := by
  rw [← Bool.not_eq_true, pubLT_iff, not_lt]

theorem insertDesc_mem (v a : RawVideo) (l : List RawVideo) :
    a ∈ insertDesc v l ↔ a = v ∨ a ∈ l := by
  induction l with
  | nil => simp [insertDesc]
  | cons w ws ih =>
    unfold insertDesc
    by_cases h : pubLT w.publishedAt v.publishedAt
    · simp only [if_pos h, List.mem_cons]
    · simp only [if_neg h, List.mem_cons, ih]
      tauto

theorem insertDesc_pairwise (v : RawVideo) (l : List RawVideo)
    (hl : l.Pairwise (fun a b => b.publishedAt ≤ a.publishedAt)) :
    (insertDesc v l).Pairwise (fun a b => b.publishedAt ≤ a.publishedAt) := by
  induction l with
  | nil => simp [insertDesc]
  | cons w ws ih =>
    rw [List.pairwise_cons] at hl
    obtain ⟨hw, hws⟩ := hl
    unfold insertDesc
    by_cases h : pubLT w.publishedAt v.publishedAt
    · rw [if_pos h]
      rw [pubLT_iff] at h
      refine List.pairwise_cons.mpr ⟨?_, List.pairwise_cons.mpr ⟨hw, hws⟩⟩
      intro b hb
      rcases List.mem_cons.mp hb with rfl | hb
      · exact le_of_lt h
      · exact le_trans (hw b hb) (le_of_lt h)
    · rw [if_neg h]
      rw [Bool.not_eq_true, pubLT_false_iff] at h
      refine List.pairwise_cons.mpr ⟨?_, ih hws⟩
      intro b hb
      rcases (insertDesc_mem v b ws).mp hb with rfl | hb
      · exact h
      · exact hw b hb

theorem sortFoldl_pairwise (l : List RawVideo) (acc : List RawVideo)
    (hacc : acc.Pairwise (fun a b => b.publishedAt ≤ a.publishedAt)) :
    (l.foldl (fun acc v => insertDesc v acc) acc).Pairwise
      (fun a b => b.publishedAt ≤ a.publishedAt) := by
  induction l generalizing acc with
  | nil => exact hacc
  | cons v vs ih => exact ih _ (insertDesc_pairwise v acc hacc)

theorem sortByPublishedDesc_pairwise (l : List RawVideo) :
    (sortByPublishedDesc l).Pairwise
      (fun a b => b.publishedAt ≤ a.publishedAt) :=
  sortFoldl_pairwise l [] (List.Pairwise.nil)

theorem sortFoldl_mem (l : List RawVideo) (acc : List RawVideo) (a : RawVideo) :
    a ∈ l.foldl (fun acc v => insertDesc v acc) acc ↔ a ∈ acc ∨ a ∈ l := by
  induction l generalizing acc with
  | nil => simp
  | cons v vs ih =>
    simp only [List.foldl_cons, ih, insertDesc_mem, List.mem_cons]
    tauto

theorem sortByPublishedDesc_mem (l : List RawVideo) (a : RawVideo) :
    a ∈ sortByPublishedDesc l ↔ a ∈ l := by
  unfold sortByPublishedDesc
  rw [sortFoldl_mem]
  simp

theorem insertDesc_filter_ne (v : RawVideo) (l : List RawVideo) (s : String)
    (hv : v.publishedAt ≠ s) :
    (insertDesc v l).filter (fun x => x.publishedAt == s) =
      l.filter (fun x => x.publishedAt == s) := by
  induction l with
  | nil => simp [insertDesc, hv]
  | cons w ws ih =>
    unfold insertDesc
    by_cases h : pubLT w.publishedAt v.publishedAt
    · rw [if_pos h]
      simp [List.filter_cons, hv]
    · rw [if_neg h]
      simp only [List.filter_cons, ih]

theorem filter_eq_nil_of_lt (l : List RawVideo) (s : String)
    (h : ∀ x ∈ l, x.publishedAt < s) :
    l.filter (fun x => x.publishedAt == s) = [] := by
  induction l with
  | nil => rfl
  | cons w ws ih =>
    rw [List.filter_cons]
    have hw : (w.publishedAt == s) = false := by
      rw [beq_eq_false_iff_ne]
      exact ne_of_lt (h w (List.mem_cons_self w ws))
    simp only [hw, Bool.false_eq_true, if_false]
    exact ih (fun x hx => h x (List.mem_cons_of_mem _ hx))

theorem insertDesc_filter_self (v : RawVideo) (l : List RawVideo)
    (hl : l.Pairwise (fun a b => b.publishedAt ≤ a.publishedAt)) :
    (insertDesc v l).filter (fun x => x.publishedAt == v.publishedAt) =
      l.filter (fun x => x.publishedAt == v.publishedAt) ++ [v] := by
  induction l with
  | nil => simp [insertDesc]
  | cons w ws ih =>
    rw [List.pairwise_cons] at hl
    obtain ⟨hw, hws⟩ := hl
    unfold insertDesc
    by_cases h : pubLT w.publishedAt v.publishedAt
    · rw [if_pos h]
      have hnil : (w :: ws).filter
          (fun x => x.publishedAt == v.publishedAt) = [] := by
        apply filter_eq_nil_of_lt
        intro x hx
        rcases List.mem_cons.mp hx with rfl | hx
        · exact (pubLT_iff _ _).mp h
        · exact lt_of_le_of_lt (hw x hx) ((pubLT_iff _ _).mp h)
      rw [List.filter_cons, hnil]
      simp
    · rw [if_neg h]
      simp only [List.filter_cons, ih hws]
      by_cases hpw : (w.publishedAt == v.publishedAt) = true <;> simp [hpw]

theorem sortFoldl_filter (l acc : List RawVideo) (s : String)
    (hacc : acc.Pairwise (fun a b => b.publishedAt ≤ a.publishedAt)) :
    (l.foldl (fun acc v => insertDesc v acc) acc).filter
        (fun x => x.publishedAt == s) =
      acc.filter (fun x => x.publishedAt == s) ++
        l.filter (fun x => x.publishedAt == s) := by
  induction l generalizing acc with
  | nil => simp
  | cons v vs ih =>
    rw [List.foldl_cons, ih _ (insertDesc_pairwise v acc hacc), List.filter_cons]
    by_cases hv : v.publishedAt = s
    · subst hv
      rw [insertDesc_filter_self v acc hacc]
      simp
    · rw [insertDesc_filter_ne v acc s hv]
      simp [hv]

/-- Stability of the sort: for every key value, the equal-key elements appear
in the output in exactly their input (fetch) order. -/
theorem sortByPublishedDesc_filter (l : List RawVideo) (s : String) :
    (sortByPublishedDesc l).filter (fun x => x.publishedAt == s) =
      l.filter (fun x => x.publishedAt == s) := by
  unfold sortByPublishedDesc
  rw [sortFoldl_filter l [] s List.Pairwise.nil]
  rfl

/-! ### Characterization of `get_feed`'s execution paths -/

theorem get_feed_miss_eq (env : Env) (c : FeedCache) (b : Bool)
    (fil : Option String) (force : Bool)
    (hmiss : cacheHit c (cacheKey b) force fil env.wallTime = false) :
    get_feed env c b fil force = feedMiss env c b fil := by
  simp [get_feed, hmiss]

theorem get_feed_hit_eq (env : Env) (c : FeedCache) (b : Bool)
    (fil : Option String) (force : Bool)
    (hhit : cacheHit c (cacheKey b) force fil env.wallTime = true) :
    get_feed env c b fil force = (c.data.getD [], c, []) := by
  simp [get_feed, hhit]

theorem feedMiss_assemble (env : Env) (c : FeedCache) (b : Bool)
    (fil : Option String) (hmock : env.mock = false)
    (hsubs : env.subsChannelIds ≠ []) :
    feedMiss env c b fil =
      (assembleVideos env b,
       (if truthyStr fil then c
        else ⟨some (assembleVideos env b), env.wallTime, some (cacheKey b)⟩),
       assembleCalls env b) := by
  unfold feedMiss
  rw [hmock]
  simp only [Bool.false_eq_true, if_false, if_neg hsubs]
  by_cases h : truthyStr fil = true <;> simp [h]

theorem assembleVideos_mem (env : Env) (b : Bool) (e : FeedEntry)
    (he : e ∈ assembleVideos env b) :
    ∃ v ∈ rawAfterShorts env b, e = formatVideo (savedMap env) v := by
  unfold assembleVideos at he
  obtain ⟨v, hv, rfl⟩ := List.mem_map.mp he
  exact ⟨v, (sortByPublishedDesc_mem _ v).mp hv, rfl⟩

theorem rawAfterShorts_sub (env : Env) (b : Bool) (v : RawVideo)
    (hv : v ∈ rawAfterShorts env b) : v ∈ rawAfterRecency env := by
  unfold rawAfterShorts at hv
  by_cases hb : b = true
  · rw [if_pos hb] at hv
    exact hv
  · rw [if_neg hb] at hv
    exact (List.mem_filter.mp hv).1

theorem rawAfterRecency_mem (env : Env) (v : RawVideo)
    (hv : v ∈ rawAfterRecency env) :
    v ∈ rawAfterMute env ∧
      ∃ t, env.parseTS (normZ v.publishedAt) = some t ∧
        env.nowUtc - 48 * 3600 ≤ t := by
  unfold rawAfterRecency at hv
  exact (recencyFilter_mem _ _ _ v).mp hv

theorem rawAfterMute_not_muted (env : Env) (v : RawVideo)
    (hv : v ∈ rawAfterMute env) : v.channelId ∉ env.muted := by
  unfold rawAfterMute at hv
  have h := (List.mem_filter.mp hv).2
  simp only [Bool.not_eq_eq_eq_not, Bool.not_true] at h
  simp at h
  exact h

/-! ### Cache claims -/

/-- C1: the stored cached data is returned (a hit) only if the slot is
populated, force-refresh was not requested, no collection filter was
requested, the stored key equals the request key, and the slot's age is
strictly below 300 seconds; and a lookup whose short-form-inclusion flag
differs from the stored entry's key is always a miss regardless of age. -/
theorem feed_cache_lookup_sound (env : Env) (c : FeedCache) (b force : Bool)
    (fil : Option String) :
    (cacheHit c (cacheKey b) force fil env.wallTime = true →
      force = false ∧ truthyStr fil = false ∧ (∃ d, c.data = some d) ∧
        c.key = some (cacheKey b) ∧ env.wallTime - c.timestamp < 300 ∧
        get_feed env c b fil force = (c.data.getD [], c, [])) ∧
    (c.key = some (cacheKey (!b)) →
      cacheHit c (cacheKey b) force fil env.wallTime = false) := by
  constructor
  · intro hhit
    have h := hhit
    simp only [cacheHit, Bool.and_eq_true, Bool.not_eq_true',
      decide_eq_true_eq] at h
    obtain ⟨⟨⟨⟨hforce, hfil⟩, hdata⟩, hkey⟩, hage⟩ := h
    refine ⟨hforce, hfil, ?_, hkey, hage, get_feed_hit_eq env c b fil force hhit⟩
    cases hd : c.data with
    | none => rw [hd] at hdata; cases hdata
    | some d => exact ⟨d, rfl⟩
  · intro hkey
    have hne : ¬(c.key = some (cacheKey b)) := by
      rw [hkey]
      simp only [Option.some.injEq]
      cases b <;> decide
    simp [cacheHit, hne]

/-- C1 instantiated: a populated, fresh, key-matching slot is served
unchanged with no collaborator call, and the key-flipped slot misses. -/
theorem feed_cache_lookup_sound_witness :
    (false = false ∧ truthyStr (none : Option String) = false ∧
      (∃ d, cWit.data = some d) ∧ cWit.key = some (cacheKey true) ∧
      envA.wallTime - cWit.timestamp < 300 ∧
      get_feed envA cWit true none false = (cWit.data.getD [], cWit, [])) ∧
    cacheHit cWit2 (cacheKey true) false none envA.wallTime = false :=
  ⟨(feed_cache_lookup_sound envA cWit true false none).1 (by decide),
   (feed_cache_lookup_sound envA cWit2 true false none).2 (by decide)⟩

/-- C3: after a miss in which the assembly actually runs (non-mock, at least
one subscription) and no collection filter was requested, the slot is
overwritten with the new data, the current time, and the request's key; and
any run with a (truthy) collection filter leaves the slot untouched. -/
theorem feed_cache_store (env : Env) (c : FeedCache) (b force : Bool)
    (fil : Option String) (hmock : env.mock = false)
    (hsubs : env.subsChannelIds ≠ [])
    (hmiss : cacheHit c (cacheKey b) force fil env.wallTime = false)
    (hfil : truthyStr fil = false) :
    (get_feed env c b fil force).2.1 =
      ⟨some ((get_feed env c b fil force).1), env.wallTime,
        some (cacheKey b)⟩ ∧
    ∀ (env2 : Env) (c2 : FeedCache) (b2 force2 : Bool) (fil2 : Option String),
      truthyStr fil2 = true → (get_feed env2 c2 b2 fil2 force2).2.1 = c2 := by
  constructor
  · rw [get_feed_miss_eq env c b fil force hmiss,
      feedMiss_assemble env c b fil hmock hsubs]
    simp [hfil]
  · intro env2 c2 b2 force2 fil2 h
    have hmiss2 : cacheHit c2 (cacheKey b2) force2 fil2 env2.wallTime = false := by
      simp [cacheHit, h]
    rw [get_feed_miss_eq env2 c2 b2 fil2 force2 hmiss2]
    unfold feedMiss
    by_cases hm : env2.mock = true
    · simp [hm]
    · by_cases hs : env2.subsChannelIds = []
      · simp [hm, hs]
      · simp [hm, hs, h]

/-- C3 instantiated: a concrete assembly stores its result, and a concrete
filtered run leaves the slot untouched. -/
theorem feed_cache_store_witness :
    (get_feed envA initCache true none false).2.1 =
      ⟨some ((get_feed envA initCache true none false).1), envA.wallTime,
        some (cacheKey true)⟩ ∧
    (get_feed envA cWit true (some "p1") false).2.1 = cWit :=
  ⟨(feed_cache_store envA initCache true false none (by decide) (by decide)
      (by decide) (by decide)).1,
   (feed_cache_store envA initCache true false none (by decide) (by decide)
      (by decide) (by decide)).2 envA cWit true false (some "p1") (by decide)⟩

/-- C10: a populated slot whose stored data is the empty list is always a
miss — even with a matching key, an age below 300 seconds, no force-refresh
and no collection filter — and the request behaves (same data, same
collaborator calls) as if the cache were empty. -/
theorem empty_cache_data_miss (env : Env) (c : FeedCache) (b : Bool)
    (hdata : c.data = some []) (hkey : c.key = some (cacheKey b))
    (hage : env.wallTime - c.timestamp < 300) :
    cacheHit c (cacheKey b) false none env.wallTime = false ∧
    (get_feed env c b none false).1 = (get_feed env initCache b none false).1 ∧
    (get_feed env c b none false).2.2 =
      (get_feed env initCache b none false).2.2 := by
  have hmiss : cacheHit c (cacheKey b) false none env.wallTime = false := by
    simp [cacheHit, hdata, truthyData]
  have hmiss0 : cacheHit initCache (cacheKey b) false none env.wallTime = false := by
    simp [cacheHit, initCache, truthyData]
  refine ⟨hmiss, ?_⟩
  rw [get_feed_miss_eq env c b none false hmiss,
    get_feed_miss_eq env initCache b none false hmiss0]
  unfold feedMiss
  by_cases hm : env.mock = true
  · simp [hm]
  · by_cases hs : env.subsChannelIds = []
    · simp [hm, hs]
    · simp [hm, hs, truthyStr]

/-- C10 instantiated: a fresh, key-matching slot holding `some []` is a miss
and the pipeline re-runs as with an empty cache. -/
theorem empty_cache_data_miss_witness :
    cacheHit ⟨some [], 50, some (cacheKey true)⟩ (cacheKey true) false none
      envA.wallTime = false ∧
    (get_feed envA ⟨some [], 50, some (cacheKey true)⟩ true none false).1 =
      (get_feed envA initCache true none false).1 ∧
    (get_feed envA ⟨some [], 50, some (cacheKey true)⟩ true none false).2.2 =
      (get_feed envA initCache true none false).2.2 :=
  empty_cache_data_miss envA ⟨some [], 50, some (cacheKey true)⟩ true rfl rfl
    (by decide)

/-- C2 counterexample: a successful, non-mock, non-filtered assembly that
yields an empty feed stores `some []`; a lookup 10 seconds later with the same
short-form flag and no force-refresh nevertheless re-invokes collaborators
(its call trace is non-empty), contrary to the claim. -/
theorem feed_cache_idem_cex :
    envE.mock = false ∧ envE.subsChannelIds ≠ [] ∧
    (get_feed envE initCache true none false).2.1.data =
      some ((get_feed envE initCache true none false).1) ∧
    (get_feed envE initCache true none false).2.1.key =
      some (cacheKey true) ∧
    envE2.wallTime -
      (get_feed envE initCache true none false).2.1.timestamp < 300 ∧
    (get_feed envE2 ((get_feed envE initCache true none false).2.1) true none
      false).2.2 ≠ [] := by
  decide

/-- C2 (amended): after a successful non-mock, non-filtered assembly *whose
result is non-empty*, any two subsequent lookups within 300 seconds with the
same short-form flag and no force-refresh return exactly the stored data,
leave the slot unchanged, and make no collaborator call. -/
theorem feed_cache_idem (env env2 env3 : Env) (c : FeedCache) (b : Bool)
    (hmock : env.mock = false) (hsubs : env.subsChannelIds ≠ [])
    (hmiss : cacheHit c (cacheKey b) false none env.wallTime = false)
    (hne : (get_feed env c b none false).1 ≠ [])
    (hage2 : env2.wallTime - env.wallTime < 300)
    (hage3 : env3.wallTime - env.wallTime < 300) :
    get_feed env2 (get_feed env c b none false).2.1 b none false =
      ((get_feed env c b none false).1,
       (get_feed env c b none false).2.1, []) ∧
    get_feed env3
        (get_feed env2 (get_feed env c b none false).2.1 b none false).2.1 b
        none false =
      ((get_feed env c b none false).1,
       (get_feed env c b none false).2.1, []) := by
  have h1 : get_feed env c b none false =
      (assembleVideos env b,
       ⟨some (assembleVideos env b), env.wallTime, some (cacheKey b)⟩,
       assembleCalls env b) := by
    rw [get_feed_miss_eq env c b none false hmiss,
      feedMiss_assemble env c b none hmock hsubs]
    simp [truthyStr]
  rw [h1] at hne ⊢
  simp only at hne ⊢
  have hd : truthyData (some (assembleVideos env b)) = true := by
    cases hout : assembleVideos env b with
    | nil => exact absurd hout hne
    | cons x xs => rfl
  have hhit2 : cacheHit
      ⟨some (assembleVideos env b), env.wallTime, some (cacheKey b)⟩
      (cacheKey b) false none env2.wallTime = true := by
    simp [cacheHit, CACHE_DURATION, truthyStr, hd, hage2]
  have h2 := get_feed_hit_eq env2
    ⟨some (assembleVideos env b), env.wallTime, some (cacheKey b)⟩ b none
    false hhit2
  rw [h2]
  have hhit3 : cacheHit
      ⟨some (assembleVideos env b), env.wallTime, some (cacheKey b)⟩
      (cacheKey b) false none env3.wallTime = true := by
    simp [cacheHit, CACHE_DURATION, truthyStr, hd, hage3]
  have h3 := get_feed_hit_eq env3
    ⟨some (assembleVideos env b), env.wallTime, some (cacheKey b)⟩ b none
    false hhit3
  simp only at h3 ⊢
  rw [h3]
  simp

/-- C2 (amended) instantiated: a concrete non-empty assembly, read back twice
within the window, is served from the cache with no collaborator calls. -/
theorem feed_cache_idem_witness :
    get_feed envA2 (get_feed envA initCache true none false).2.1 true none
        false =
      ((get_feed envA initCache true none false).1,
       (get_feed envA initCache true none false).2.1, []) ∧
    get_feed envA3
        (get_feed envA2 (get_feed envA initCache true none false).2.1 true
          none false).2.1 true none false =
      ((get_feed envA initCache true none false).1,
       (get_feed envA initCache true none false).2.1, []) :=
  feed_cache_idem envA envA2 envA3 initCache true (by decide) (by decide)
    (by decide) (by decide) (by decide) (by decide)

/-! ### Output-shape claims -/

/-- C4: every assembled feed is non-increasing by `publishedAt` (string
comparison, as the code sorts), and the sort is stable: for every key value,
the equal-key entries appear exactly as in the fetch-ordered, filtered,
formatted list. -/
theorem feed_output_sorted_stable (env : Env) (c : FeedCache) (b force : Bool)
    (fil : Option String) (hmock : env.mock = false)
    (hsubs : env.subsChannelIds ≠ [])
    (hmiss : cacheHit c (cacheKey b) force fil env.wallTime = false) :
    ((get_feed env c b fil force).1).Pairwise
      (fun a a' => a'.published_at ≤ a.published_at) ∧
    ∀ s, ((get_feed env c b fil force).1).filter
        (fun e => e.published_at == s) =
      ((rawAfterShorts env b).map (formatVideo (savedMap env))).filter
        (fun e => e.published_at == s) := by
  rw [get_feed_miss_eq env c b fil force hmiss,
    feedMiss_assemble env c b fil hmock hsubs]
  simp only
  constructor
  · unfold assembleVideos
    rw [List.pairwise_map]
    exact (sortByPublishedDesc_pairwise (rawAfterShorts env b)).imp
      (fun h => h)
  · intro s
    unfold assembleVideos
    rw [List.filter_map, List.filter_map]
    congr 1
    exact sortByPublishedDesc_filter (rawAfterShorts env b) s

/-- C4 instantiated at a concrete assembly and key value. -/
theorem feed_output_sorted_stable_witness :
    ((get_feed envA initCache true none false).1).Pairwise
      (fun a a' => a'.published_at ≤ a.published_at) ∧
    ((get_feed envA initCache true none false).1).filter
        (fun e => e.published_at == "t9Z") =
      ((rawAfterShorts envA true).map (formatVideo (savedMap envA))).filter
        (fun e => e.published_at == "t9Z") :=
  ⟨(feed_output_sorted_stable envA initCache true false none (by decide)
      (by decide) (by decide)).1,
   (feed_output_sorted_stable envA initCache true false none (by decide)
      (by decide) (by decide)).2 "t9Z"⟩

/-- C5: the recency filter keeps a raw item exactly when its normalized
timestamp parses to a time at or after the 48-hour cutoff (a parse failure
drops it, fail-closed), and consequently every output entry of an assembly
has a parsable timestamp at or after `now − 48h`. -/
theorem feed_recency (env : Env) (c : FeedCache) (b force : Bool)
    (fil : Option String) (hmock : env.mock = false)
    (hsubs : env.subsChannelIds ≠ [])
    (hmiss : cacheHit c (cacheKey b) force fil env.wallTime = false) :
    (∀ (parse : String → Option Int) (cutoff : Int) (l : List RawVideo)
        (v : RawVideo),
      v ∈ recencyFilter parse cutoff l ↔
        (v ∈ l ∧ ∃ t, parse (normZ v.publishedAt) = some t ∧ cutoff ≤ t)) ∧
    ∀ e ∈ (get_feed env c b fil force).1,
      ∃ t, env.parseTS (normZ e.published_at) = some t ∧
        env.nowUtc - 48 * 3600 ≤ t := by
  refine ⟨recencyFilter_mem, ?_⟩
  rw [get_feed_miss_eq env c b fil force hmiss,
    feedMiss_assemble env c b fil hmock hsubs]
  simp only
  intro e he
  obtain ⟨v, hv, rfl⟩ := assembleVideos_mem env b e he
  exact (rawAfterRecency_mem env v (rawAfterShorts_sub env b v hv)).2

/-- C5 instantiated: the filter-semantics equivalence at a concrete item and
the recency bound at the concrete assembled entry. -/
theorem feed_recency_witness :
    (rawA ∈ recencyFilter envA.parseTS 0 [rawA] ↔
      (rawA ∈ [rawA] ∧
        ∃ t, envA.parseTS (normZ rawA.publishedAt) = some t ∧ (0 : Int) ≤ t)) ∧
    ∃ t, envA.parseTS (normZ eA.published_at) = some t ∧
      envA.nowUtc - 48 * 3600 ≤ t :=
  ⟨(feed_recency envA initCache true false none (by decide) (by decide)
      (by decide)).1 envA.parseTS 0 [rawA] rawA,
   (feed_recency envA initCache true false none (by decide) (by decide)
      (by decide)).2 eA (by decide)⟩

/-- C6: no entry of an assembled feed has its channel id in the mute set the
assembly read, and the mute list is loaded exactly once per (non-cached)
assembly — it is read fresh each time, never cached across assemblies. -/
theorem feed_mute (env : Env) (c : FeedCache) (b force : Bool)
    (fil : Option String) (hmock : env.mock = false)
    (hsubs : env.subsChannelIds ≠ [])
    (hmiss : cacheHit c (cacheKey b) force fil env.wallTime = false) :
    (∀ e ∈ (get_feed env c b fil force).1, e.channel_id ∉ env.muted) ∧
    ((get_feed env c b fil force).2.2).count Call.muteLoad = 1 := by
  rw [get_feed_miss_eq env c b fil force hmiss,
    feedMiss_assemble env c b fil hmock hsubs]
  simp only
  constructor
  · intro e he
    obtain ⟨v, hv, rfl⟩ := assembleVideos_mem env b e he
    exact rawAfterMute_not_muted env v
      (rawAfterRecency_mem env v (rawAfterShorts_sub env b v hv)).1
  · unfold assembleCalls
    simp only [List.count_append, List.count_cons, List.count_nil]
    have h1 : ((uploadIds env).map Call.playlistItems).count
        Call.muteLoad = 0 := List.count_eq_zero.mpr (by simp)
    have h2 : (((rawAfterRecency env).map
        (fun v => Call.probeCall v.videoId)).count Call.muteLoad) = 0 :=
      List.count_eq_zero.mpr (by simp)
    have h3 : ((env.userPlaylists.map
        (fun pl => Call.playlistIds pl.id)).count Call.muteLoad) = 0 :=
      List.count_eq_zero.mpr (by simp)
    by_cases hb : b = true <;> simp [hb, h1, h2, h3]

/-- C6 instantiated at the concrete assembly. -/
theorem feed_mute_witness :
    eA.channel_id ∉ envA.muted ∧
    ((get_feed envA initCache true none false).2.2).count Call.muteLoad = 1 :=
  ⟨(feed_mute envA initCache true false none (by decide) (by decide)
      (by decide)).1 eA (by decide),
   (feed_mute envA initCache true false none (by decide) (by decide)
      (by decide)).2⟩

/-! ### Lemmas about the saved-status map -/

theorem mapGet_nil (vid : String) : mapGet [] vid = none := rfl

theorem mapGet_mapSet_self (m : List (String × List PL)) (vid : String)
    (l : List PL) : mapGet (mapSet m vid l) vid = some l := by
  induction m with
  | nil =>
    unfold mapSet mapGet
    rw [List.find?_cons_of_pos _ (by simp)]
    rfl
  | cons kv rest ih =>
    unfold mapSet
    by_cases h : (kv.1 == vid) = true
    · rw [if_pos h]
      unfold mapGet
      rw [List.find?_cons_of_pos _ (by simp)]
      rfl
    · rw [if_neg h]
      unfold mapGet at ih ⊢
      rw [List.find?_cons_of_neg _ (by simpa using h)]
      exact ih

theorem mapGet_mapSet_ne (m : List (String × List PL)) (vid u : String)
    (l : List PL) (h : u ≠ vid) :
    mapGet (mapSet m vid l) u = mapGet m u := by
  have hvu : (vid == u) = false := by
    rw [beq_eq_false_iff_ne]
    exact fun hh => h hh.symm
  induction m with
  | nil =>
    unfold mapSet mapGet
    rw [List.find?_cons_of_neg _ (by simp [hvu])]
  | cons kv rest ih =>
    unfold mapSet
    by_cases hk : (kv.1 == vid) = true
    · have hk1 : kv.1 = vid := by rwa [beq_iff_eq] at hk
      rw [if_pos hk]
      unfold mapGet
      rw [List.find?_cons_of_neg _ (by simp [hvu]),
        List.find?_cons_of_neg _ (by simp [hk1, hvu])]
    · rw [if_neg hk]
      unfold mapGet at ih ⊢
      by_cases hku : (kv.1 == u) = true
      · rw [List.find?_cons_of_pos
            (p := fun kv : String × List PL => kv.1 == u) _ hku,
          List.find?_cons_of_pos
            (p := fun kv : String × List PL => kv.1 == u) _ hku]
      · rw [List.find?_cons_of_neg _ (by simpa using hku),
          List.find?_cons_of_neg _ (by simpa using hku)]
        exact ih

theorem addOne_get_self (pl : PL) (m : List (String × List PL)) (vid : String) :
    mapGet (addOne pl m vid) vid =
      some (if ((mapGet m vid).getD []).any (fun p => p.id == pl.id)
            then (mapGet m vid).getD []
            else (mapGet m vid).getD [] ++ [pl]) := by
  unfold addOne
  by_cases h : ((mapGet m vid).getD []).any (fun p => p.id == pl.id) = true <;>
    simp [h, mapGet_mapSet_self]

theorem addOne_get_ne (pl : PL) (m : List (String × List PL)) (vid u : String)
    (h : u ≠ vid) : mapGet (addOne pl m vid) u = mapGet m u := by
  unfold addOne
  by_cases hc : ((mapGet m vid).getD []).any (fun p => p.id == pl.id) = true <;>
    simp [hc, mapGet_mapSet_ne m vid u _ h]

theorem addOne_mono (pl : PL) (m : List (String × List PL)) (vid u : String)
    (q : PL) (h : q ∈ (mapGet m u).getD []) :
    q ∈ (mapGet (addOne pl m vid) u).getD [] := by
  by_cases hu : u = vid
  · subst hu
    rw [addOne_get_self]
    by_cases hc : ((mapGet m u).getD []).any (fun p => p.id == pl.id) = true
    · simp only [hc, if_true, Option.getD_some]
      exact h
    · simp only [hc, Bool.false_eq_true, if_false, Option.getD_some]
      exact List.mem_append_left _ h
  · rw [addOne_get_ne pl m vid u hu]
    exact h

theorem foldl_addOne_mono (pl : PL) (vids : List String)
    (m : List (String × List PL)) (u : String) (q : PL)
    (h : q ∈ (mapGet m u).getD []) :
    q ∈ (mapGet (vids.foldl (addOne pl) m) u).getD [] := by
  induction vids generalizing m with
  | nil => exact h
  | cons w ws ih => exact ih _ (addOne_mono pl m w u q h)

theorem perPlaylist_mono (enum : String → Except Unit (List String))
    (m : List (String × List PL)) (pl : PL) (u : String) (q : PL)
    (h : q ∈ (mapGet m u).getD []) :
    q ∈ (mapGet (perPlaylist enum m pl) u).getD [] := by
  unfold perPlaylist
  cases henum : enum pl.id with
  | error e => exact h
  | ok vids => exact foldl_addOne_mono pl vids m u q h

theorem buildFold_mono (enum : String → Except Unit (List String))
    (pls : List PL) (m : List (String × List PL)) (u : String) (q : PL)
    (h : q ∈ (mapGet m u).getD []) :
    q ∈ (mapGet (pls.foldl (perPlaylist enum) m) u).getD [] := by
  induction pls generalizing m with
  | nil => exact h
  | cons pl rest ih => exact ih _ (perPlaylist_mono enum m pl u q h)

theorem addOne_ids (pl : PL) (m : List (String × List PL)) (vid : String)
    (ids : List String)
    (hm : ∀ u q, q ∈ (mapGet m u).getD [] → q.id ∈ ids)
    (hpl : pl.id ∈ ids) :
    ∀ u q, q ∈ (mapGet (addOne pl m vid) u).getD [] → q.id ∈ ids := by
  intro u q hq
  by_cases hu : u = vid
  · subst hu
    rw [addOne_get_self] at hq
    by_cases hc : ((mapGet m u).getD []).any (fun p => p.id == pl.id) = true
    · simp only [hc, if_true, Option.getD_some] at hq
      exact hm u q hq
    · simp only [hc, Bool.false_eq_true, if_false, Option.getD_some] at hq
      rcases List.mem_append.mp hq with hq | hq
      · exact hm u q hq
      · rw [List.mem_singleton.mp hq]
        exact hpl
  · rw [addOne_get_ne pl m vid u hu] at hq
    exact hm u q hq

theorem foldl_addOne_ids (pl : PL) (vids : List String)
    (m : List (String × List PL)) (ids : List String)
    (hm : ∀ u q, q ∈ (mapGet m u).getD [] → q.id ∈ ids)
    (hpl : pl.id ∈ ids) :
    ∀ u q, q ∈ (mapGet (vids.foldl (addOne pl) m) u).getD [] → q.id ∈ ids := by
  induction vids generalizing m with
  | nil => exact hm
  | cons w ws ih => exact ih _ (addOne_ids pl m w ids hm hpl)

theorem buildFold_ids (enum : String → Except Unit (List String))
    (pls : List PL) (m : List (String × List PL)) (ids : List String)
    (hm : ∀ u q, q ∈ (mapGet m u).getD [] → q.id ∈ ids)
    (hpls : ∀ pl ∈ pls, pl.id ∈ ids) :
    ∀ u q, q ∈ (mapGet (pls.foldl (perPlaylist enum) m) u).getD [] →
      q.id ∈ ids := by
  induction pls generalizing m with
  | nil => exact hm
  | cons pl rest ih =>
    refine ih _ ?_ (fun p hp => hpls p (List.mem_cons_of_mem _ hp))
    unfold perPlaylist
    cases henum : enum pl.id with
    | error e => exact hm
    | ok vids =>
      exact foldl_addOne_ids pl vids m ids hm
        (hpls pl (List.mem_cons_self _ _))

theorem addOne_preserves_eq (pl : PL) (m : List (String × List PL))
    (vid V : String)
    (hP : ∀ q ∈ (mapGet m V).getD [], q.id = pl.id → q = pl) :
    ∀ q ∈ (mapGet (addOne pl m vid) V).getD [], q.id = pl.id → q = pl := by
  intro q hq hid
  by_cases hu : V = vid
  · subst hu
    rw [addOne_get_self] at hq
    by_cases hc : ((mapGet m V).getD []).any (fun p => p.id == pl.id) = true
    · simp only [hc, if_true, Option.getD_some] at hq
      exact hP q hq hid
    · simp only [hc, Bool.false_eq_true, if_false, Option.getD_some] at hq
      rcases List.mem_append.mp hq with hq | hq
      · exact hP q hq hid
      · exact List.mem_singleton.mp hq
  · rw [addOne_get_ne pl m vid V hu] at hq
    exact hP q hq hid

theorem foldl_addOne_inserts (pl : PL) (vids : List String)
    (m : List (String × List PL)) (V : String) (hV : V ∈ vids)
    (hP : ∀ q ∈ (mapGet m V).getD [], q.id = pl.id → q = pl) :
    pl ∈ (mapGet (vids.foldl (addOne pl) m) V).getD [] := by
  induction vids generalizing m with
  | nil => cases hV
  | cons w ws ih =>
    rw [List.foldl_cons]
    rcases List.mem_cons.mp hV with rfl | hVws
    · by_cases hws : V ∈ ws
      · exact ih _ hws (addOne_preserves_eq pl m V V hP)
      · apply foldl_addOne_mono
        rw [addOne_get_self]
        by_cases hc : ((mapGet m V).getD []).any (fun p => p.id == pl.id) = true
        · simp only [hc, if_true, Option.getD_some]
          obtain ⟨q, hq, hbeq⟩ := List.any_eq_true.mp hc
          have hqid : q.id = pl.id := by rwa [beq_iff_eq] at hbeq
          rw [← hP q hq hqid]
          exact hq
        · simp only [hc, Bool.false_eq_true, if_false, Option.getD_some]
          exact List.mem_append_right _ (List.mem_singleton.mpr rfl)
    · exact ih _ hVws (addOne_preserves_eq pl m w V hP)

theorem buildSavedMap_saves (enum : String → Except Unit (List String))
    (xs ys : List PL) (pl : PL) (vids : List String) (V : String)
    (hok : enum pl.id = .ok vids) (hV : V ∈ vids)
    (hxs : pl.id ∉ xs.map (·.id)) :
    pl ∈ (mapGet (buildSavedMap enum (xs ++ pl :: ys)) V).getD [] := by
  unfold buildSavedMap
  rw [List.foldl_append, List.foldl_cons]
  apply buildFold_mono
  unfold perPlaylist
  rw [hok]
  apply foldl_addOne_inserts pl vids _ V hV
  intro q hq hid
  exfalso
  apply hxs
  have := buildFold_ids enum xs [] (xs.map (·.id))
    (fun u q hq => by rw [mapGet_nil] at hq; cases hq)
    (fun p hp => List.mem_map_of_mem _ hp) V q hq
  rw [← hid]
  exact this

theorem addOne_nodup (pl : PL) (m : List (String × List PL)) (vid : String)
    (hm : ∀ u, (((mapGet m u).getD []).map (·.id)).Nodup) :
    ∀ u, (((mapGet (addOne pl m vid) u).getD []).map (·.id)).Nodup := by
  intro u
  by_cases hu : u = vid
  · subst hu
    rw [addOne_get_self]
    by_cases hc : ((mapGet m u).getD []).any (fun p => p.id == pl.id) = true
    · simp only [hc, if_true, Option.getD_some]
      exact hm u
    · simp only [hc, Bool.false_eq_true, if_false, Option.getD_some,
        List.map_append, List.map_singleton]
      rw [List.nodup_append]
      refine ⟨hm u, List.nodup_singleton _, ?_⟩
      intro a ha hb
      rw [List.mem_singleton.mp hb] at ha
      obtain ⟨q, hq, hqid⟩ := List.mem_map.mp ha
      rw [Bool.not_eq_true, List.any_eq_false] at hc
      exact hc q hq (beq_iff_eq.mpr hqid)
  · rw [addOne_get_ne pl m vid u hu]
    exact hm u

theorem foldl_addOne_nodup (pl : PL) (vids : List String)
    (m : List (String × List PL))
    (hm : ∀ u, (((mapGet m u).getD []).map (·.id)).Nodup) :
    ∀ u, (((mapGet (vids.foldl (addOne pl) m) u).getD []).map (·.id)).Nodup := by
  induction vids generalizing m with
  | nil => exact hm
  | cons w ws ih => exact ih _ (addOne_nodup pl m w hm)

theorem perPlaylist_nodup (enum : String → Except Unit (List String))
    (m : List (String × List PL)) (pl : PL)
    (hm : ∀ u, (((mapGet m u).getD []).map (·.id)).Nodup) :
    ∀ u, (((mapGet (perPlaylist enum m pl) u).getD []).map (·.id)).Nodup := by
  unfold perPlaylist
  cases henum : enum pl.id with
  | error e => exact hm
  | ok vids => exact foldl_addOne_nodup pl vids m hm

theorem buildSavedMap_nodup (enum : String → Except Unit (List String))
    (pls : List PL) :
    ∀ u, (((mapGet (buildSavedMap enum pls) u).getD []).map (·.id)).Nodup := by
  unfold buildSavedMap
  suffices h : ∀ (ps : List PL) (m : List (String × List PL)),
      (∀ u, (((mapGet m u).getD []).map (·.id)).Nodup) →
      ∀ u, (((mapGet (ps.foldl (perPlaylist enum) m) u).getD []).map
        (·.id)).Nodup by
    refine h pls [] (fun u => ?_)
    rw [mapGet_nil]
    exact List.nodup_nil
  intro ps
  induction ps with
  | nil => exact fun m hm => hm
  | cons pl rest ih =>
    intro m hm
    rw [List.foldl_cons]
    exact ih _ (perPlaylist_nodup enum m pl hm)

theorem buildSavedMap_error_skip (enum : String → Except Unit (List String))
    (xs ys : List PL) (p : PL) (hfail : enum p.id = .error ()) :
    buildSavedMap enum (xs ++ p :: ys) = buildSavedMap enum (xs ++ ys) := by
  unfold buildSavedMap
  rw [List.foldl_append, List.foldl_append, List.foldl_cons]
  have h : perPlaylist enum (xs.foldl (perPlaylist enum) []) p =
      xs.foldl (perPlaylist enum) [] := by
    unfold perPlaylist
    rw [hfail]
  rw [h]

theorem mem_getD_isSome (o : Option (List PL)) (q : PL)
    (h : q ∈ o.getD []) : o.isSome = true := by
  cases o with
  | none => cases h
  | some l => rfl

/-- C7: if a collection's (successful) enumeration contains a video id, every
assembled entry with that id is annotated `saved = true` with that collection's
id and title listed in `saved_to`; no entry ever lists the same collection id
twice; and a collection whose enumeration raises contributes nothing while the
other collections' contributions are untouched.  Collection ids are assumed
distinct (`hids`), as collection identifiers are. -/
theorem feed_saved_status (env : Env) (c : FeedCache) (b force : Bool)
    (fil : Option String) (pl : PL) (vids : List String) (V : String)
    (hmock : env.mock = false) (hsubs : env.subsChannelIds ≠ [])
    (hmiss : cacheHit c (cacheKey b) force fil env.wallTime = false)
    (hids : (env.userPlaylists.map (·.id)).Nodup)
    (hpl : pl ∈ env.userPlaylists)
    (hok : env.enumIds pl.id = .ok vids) (hV : V ∈ vids) :
    (∀ e ∈ (get_feed env c b fil force).1, e.video_id = V →
      e.saved = true ∧ ∃ q ∈ e.saved_to, q.id = pl.id ∧ q.title = pl.title) ∧
    (∀ e ∈ (get_feed env c b fil force).1, (e.saved_to.map (·.id)).Nodup) ∧
    (∀ (enum : String → Except Unit (List String)) (xs ys : List PL) (p : PL),
      enum p.id = .error () →
      buildSavedMap enum (xs ++ p :: ys) = buildSavedMap enum (xs ++ ys)) := by
  rw [get_feed_miss_eq env c b fil force hmiss,
    feedMiss_assemble env c b fil hmock hsubs]
  simp only
  refine ⟨?_, ?_,
    fun enum xs ys p hf => buildSavedMap_error_skip enum xs ys p hf⟩
  · intro e he hvid
    obtain ⟨v, hv, rfl⟩ := assembleVideos_mem env b e he
    have hvV : v.videoId = V := hvid
    obtain ⟨xs, ys, hsplit⟩ := List.append_of_mem hpl
    have hxs : pl.id ∉ xs.map (·.id) := by
      rw [hsplit, List.map_append, List.map_cons] at hids
      have hd := (List.nodup_append.mp hids).2.2
      intro hmem
      exact hd hmem (List.mem_cons_self _ _)
    have hplmem : pl ∈ (mapGet (savedMap env) V).getD [] := by
      unfold savedMap
      rw [hsplit]
      exact buildSavedMap_saves env.enumIds xs ys pl vids V hok hV hxs
    constructor
    · show (mapGet (savedMap env) v.videoId).isSome = true
      rw [hvV]
      exact mem_getD_isSome _ pl hplmem
    · refine ⟨pl, ?_, rfl, rfl⟩
      show pl ∈ (mapGet (savedMap env) v.videoId).getD []
      rw [hvV]
      exact hplmem
  · intro e he
    obtain ⟨v, hv, rfl⟩ := assembleVideos_mem env b e he
    exact buildSavedMap_nodup env.enumIds env.userPlaylists v.videoId

/-- C7 instantiated at the concrete assembly (collection `p1` holding `v1`),
plus a concrete skipped-failure equality. -/
theorem feed_saved_status_witness :
    (eA.saved = true ∧
      ∃ q ∈ eA.saved_to, q.id = (⟨"p1", "P"⟩ : PL).id ∧
        q.title = (⟨"p1", "P"⟩ : PL).title) ∧
    (eA.saved_to.map (·.id)).Nodup ∧
    buildSavedMap envE.enumIds ([] ++ (⟨"z", "Z"⟩ : PL) :: []) =
      buildSavedMap envE.enumIds ([] ++ []) :=
  have h := feed_saved_status envA initCache true false none ⟨"p1", "P"⟩
    ["v1"] "v1" (by decide) (by decide) (by decide) (by decide) (by decide)
    rfl (by decide)
  ⟨h.1 eA (by decide) (by decide), h.2.1 eA (by decide),
   h.2.2 envE.enumIds [] [] ⟨"z", "Z"⟩ rfl⟩

end TubeSwipe
